import Mathlib

/-!
# Verification of `pdf2markdown.py` (davidj-brewster/pdf2markdown)

A shallow embedding, in Lean 4, of the PDF-to-Markdown converter in
`src/pdf2markdown.py`, together with theorems settling the frozen claims
about it.

Modelling conventions:

* Page coordinates and font sizes (Python floats holding decimal values) are
  modelled as rationals `ℚ`.
* Python strings are Lean `String`s.  Python's `str.strip()` is only ever
  used for its truthiness (`if s.strip():`), which we model with the
  executable predicate `pyBlank` (true iff every character is whitespace;
  in particular `pyBlank "" = true`).
* External collaborators (pdfplumber, pdf2image, pytesseract) appear as
  function parameters: a document handle is the data pdfplumber would
  yield, the rasterizer is `rasterize : ℕ → β` (one bitmap per page
  number), cropping is `crop : β → Rect → Option β` (`none` models a
  raised cropping error), and OCR is `ocr : β → String`.
* A `try/except` that logs and continues is modelled by the corresponding
  `Option`/skip branch; a `try/except` that logs and re-raises is modelled
  with `Except`.  Logged warnings/errors that the claims mention are
  reified as a `List LogEvent` output.
-/

namespace Pdf2Markdown

/-- Truthiness of Python's `s.strip()`: `pyBlank s = true` iff `s.strip()`
is falsy, i.e. `s` is empty or whitespace-only.  (The source only ever uses
`strip()` inside a truthiness test.) -/
def pyBlank (s : String) : Bool := s.data.all (fun c => c.isWhitespace)

/-- Concatenation of a list of strings: Python's `''.join(l)` (and the
building block for describing repeated `+=` accumulation). -/
def sjoin : List String → String
  | [] => ""
  | s :: rest => s ++ sjoin rest

/-! ## Geometry primitive (`class Rect`, src lines 21–40) -/

/-- `Rect(bbox)`: axis-aligned rectangle `(x0, y0, x1, y1)` in page
coordinates, from src lines 21–27. -/
structure Rect where
  x0 : ℚ
  y0 : ℚ
  x1 : ℚ
  y1 : ℚ
deriving DecidableEq, Repr

/-- `Rect.contains` (src lines 29–32):
`self.x0 <= other.x0 and self.y0 <= other.y0 and self.x1 >= other.x1 and
self.y1 >= other.y1`. -/
def Rect.contains (s o : Rect) : Bool :=
  decide (s.x0 ≤ o.x0) && decide (s.y0 ≤ o.y0) &&
    decide (s.x1 ≥ o.x1) && decide (s.y1 ≥ o.y1)

/-- `Rect.intersects` (src lines 34–37):
`not (self.x1 < other.x0 or self.x0 > other.x1 or self.y1 < other.y0 or
self.y0 > other.y1)`. -/
def Rect.intersects (s o : Rect) : Bool :=
  !(decide (s.x1 < o.x0) || decide (s.x0 > o.x1) ||
      decide (s.y1 < o.y0) || decide (s.y0 > o.y1))

/-! ## Table formatter (`_convert_table_to_markdown`, src lines 123–145)

Cells reaching this function are the strings pdfplumber extracted; the
`str(cell)` coercion applied to data-row cells is the identity on our
`String` cells, and the header row is joined without any coercion, exactly
as in the source. -/

/-- `_convert_table_to_markdown(table)` (src lines 123–145): empty grid
yields `""`; otherwise a `| … |` header row, a `---` separator row with one
cell per header column, then one `| … |` row per remaining grid row,
accumulated by `+=` in order. -/
def _convert_table_to_markdown (table : List (List String)) : String :=
  match table with
  | [] => ""
  | headers :: rest =>
    let md := "| " ++ String.intercalate " | " headers ++ " |\n"
    let md := md ++ ("| " ++ String.intercalate " | " (List.replicate headers.length "---") ++ " |\n")
    rest.foldl (fun acc row => acc ++ ("| " ++ String.intercalate " | " row ++ " |\n")) md

/-! ## Layout segmenter (`_analyze_layout`, src lines 147–200)

A `char` record of pdfplumber carries a text fragment and, optionally, a
`size` attribute (`'size' in char` is the presence test of the source).
The source accumulates the buffer as a Python *list* of fragments
(`current_text.append(...)`, flushed with `''.join(current_text)` and
tested with `if current_text:`), so the buffer is modelled as
`List String`, not as a single string: a glyph whose text is `""` still
makes the buffer non-empty. -/

/-- One pdfplumber `char` record: its `text` and its optional `size`. -/
structure Glyph where
  text : String
  size : Option ℚ
deriving DecidableEq, Repr

/-- One entry of `layout_elements['text_blocks']`: flushed text plus the
`current_size` at flush time (`none` before any size-carrying glyph). -/
structure TextBlock where
  text : String
  size : Option ℚ
deriving DecidableEq, Repr

/-- The character loop of `_analyze_layout` (src lines 175–194), with the
running state (`current_size`, `current_text`) made explicit.  On a glyph
whose size is present and differs from `current_size`: flush the buffer
(if non-empty) as a block tagged with the previous size, adopt the new
size.  Every glyph's text is then appended to the buffer.  After the scan
the remaining buffer (if non-empty) is flushed as a final block. -/
def analyzeAux (cs : Option ℚ) (buf : List String) : List Glyph → List TextBlock
  | [] =>
    match buf with
    | [] => []
    | _ :: _ => [⟨sjoin buf, cs⟩]
  | g :: gs =>
    match g.size with
    | some s =>
      if some s ≠ cs then
        match buf with
        | [] => analyzeAux (some s) [g.text] gs
        | _ :: _ => ⟨sjoin buf, cs⟩ :: analyzeAux (some s) [g.text] gs
      else analyzeAux cs (buf ++ [g.text]) gs
    | none => analyzeAux cs (buf ++ [g.text]) gs

/-- `_analyze_layout`'s `text_blocks` output (src lines 147–200), starting
from `current_size = None` and an empty buffer.  (The returned
`headers`/`paragraphs` sub-collections are always empty in the source and
are not modelled.) -/
def _analyze_layout (chars : List Glyph) : List TextBlock :=
  analyzeAux none [] chars

/-- Specification-side grouping: one `(text, size)` entry per maximal run
of consecutive same-size glyphs, texts concatenated, in original order. -/
def runs : List (String × ℚ) → List (String × ℚ)
  | [] => []
  | (t, s) :: rest =>
    match runs rest with
    | [] => [(t, s)]
    | (t2, s2) :: more =>
      if s2 = s then (t ++ t2, s) :: more else (t, s) :: (t2, s2) :: more

/-! ## Content extractor (`extract_content`, src lines 271–322) -/

/-- `ImageLocation`: the dict `{'page': page_num, 'bbox': Rect(...)}`
appended to `content['images']` (src lines 306–309).  `page` is 1-based. -/
structure ImageLocation where
  page : ℕ
  bbox : Rect
deriving DecidableEq, Repr

/-- What one pdfplumber page yields to `extract_content`: the result of
`page.extract_text()` (`none` models Python `None`) and the page's image
descriptors, each optionally carrying a `bbox`. -/
structure PageData where
  text : Option String
  images : List (Option Rect)
deriving DecidableEq, Repr

/-- The `content` dict built by `extract_content` (src lines 281–284) and
later extended by `convert` with the `image_texts` key (`none` = the key
is absent). -/
structure Content where
  text : List String
  images : List ImageLocation
  image_texts : Option (List String)
deriving DecidableEq, Repr

/-- The logged warnings/errors of `extract_content` that the claims are
about, each carrying the 1-based page number the source logs. -/
inductive LogEvent where
  | noText (page : ℕ)
  | noBbox (page : ℕ)
  | pageError (page : ℕ)
deriving DecidableEq, Repr

/-- The `for img in page.images` loop (src lines 302–311): an image with a
`bbox` becomes an `ImageLocation` for page `n`; one without logs a
warning and is skipped. -/
def collectImages (n : ℕ) : List (Option Rect) → List ImageLocation × List LogEvent
  | [] => ([], [])
  | some bbox :: rest =>
    let r := collectImages n rest
    (⟨n, bbox⟩ :: r.1, r.2)
  | none :: rest =>
    let r := collectImages n rest
    (r.1, LogEvent.noBbox n :: r.2)

/-- The page loop of `extract_content` (src lines 289–316), `n` the
1-based number of the first page of the remaining list.  A page whose
processing raises (`none`) logs an error with its page number and is
skipped (`continue`).  A page's text is appended only when
`page_text and page_text.strip()` is truthy; otherwise a "no text"
warning is logged.  Image locations are accumulated across pages in page
order. -/
def extractLoop : ℕ → List (Option PageData) → Content × List LogEvent
  | _, [] => (⟨[], [], none⟩, [])
  | n, p? :: rest =>
    match p? with
    | none =>
      let r := extractLoop (n + 1) rest
      (r.1, LogEvent.pageError n :: r.2)
    | some pd =>
      let tr : List String × List LogEvent :=
        match pd.text with
        | some t => if pyBlank t then ([], [LogEvent.noText n]) else ([t], [])
        | none => ([], [LogEvent.noText n])
      let ir := collectImages n pd.images
      let r := extractLoop (n + 1) rest
      (⟨tr.1 ++ r.1.text, ir.1 ++ r.1.images, none⟩, tr.2 ++ ir.2 ++ r.2)

/-- `extract_content(pdf_path)` (src lines 271–322).  The document handle
is `none` when `pdfplumber.open` (or page iteration) raises — that error
is logged and re-raised (`Except.error`); otherwise the page loop runs
and the function returns normally. -/
def extract_content (doc : Option (List (Option PageData))) :
    Except Unit (Content × List LogEvent) :=
  match doc with
  | none => Except.error ()
  | some pages => Except.ok (extractLoop 1 pages)

/-- Specification-side description of the text list `extract_content`
builds: the texts of the pages that did not raise and whose text is
present and not whitespace-only, in page order. -/
def pageTexts (pages : List (Option PageData)) : List String :=
  pages.filterMap fun p? =>
    p?.bind fun pd => pd.text.bind fun t => if pyBlank t then none else some t

/-! ## Image/OCR processor (`process_images`, src lines 324–372) -/

/-- The bitmaps `pdf2image.convert_from_path(path, first_page, last_page)`
returns: one bitmap per page of the inclusive range `[first, last]`, in
page order. -/
def rasterPages {β : Type} (rasterize : ℕ → β) (first last : ℕ) : List β :=
  (List.range (last + 1 - first)).map fun i => rasterize (first + i)

/-- The `for img_info in images` loop of `process_images`
(src lines 347–367), accumulating `image_texts`.  `pages[page_index]`
with `page_index = img_info['page'] - 1` is modelled with `List.get?`:
an out-of-range index raises `IndexError`, which the enclosing
`try/except` (src lines 369–370) catches, so the accumulated list is
returned as-is.  (Pages are 1-based, so the ℕ subtraction `page - 1`
agrees with the source.)  A cropping error (`crop … = none`) logs and
`continue`s, skipping OCR for that location; an OCR result that is empty
or whitespace-only is not recorded. -/
def piLoop {β : Type} (pages : List β) (crop : β → Rect → Option β)
    (ocr : β → String) : List ImageLocation → List String → List String
  | [], acc => acc
  | img :: rest, acc =>
    match pages.get? (img.page - 1) with
    | none => acc
    | some bmp =>
      match crop bmp img.bbox with
      | none => piLoop pages crop ocr rest acc
      | some cropped =>
        let t := ocr cropped
        if pyBlank t then piLoop pages crop ocr rest acc
        else
          piLoop pages crop ocr rest
            (acc ++ ["Image text (Page " ++ toString img.page ++ "):\n" ++ t])

/-- `process_images(pdf_path, images)` (src lines 324–372).  Returns the
accumulated `image_texts` together with a record of the rasterizer call:
`none` when `pdf2image` was never invoked (empty image list), otherwise
`some (first_page, last_page)` with the arguments of the single call,
`first_page = images[0]['page']` and `last_page = images[-1]['page']`. -/
def process_images {β : Type} (rasterize : ℕ → β) (crop : β → Rect → Option β)
    (ocr : β → String) (images : List ImageLocation) :
    List String × Option (ℕ × ℕ) :=
  match images with
  | [] => ([], none)
  | i :: rest =>
    let first := i.page
    let last := (rest.getLastD i).page
    let pages := rasterPages rasterize first last
    (piLoop pages crop ocr (i :: rest) [], some (first, last))

/-! ## Markdown assembler (`convert_to_markdown`, src lines 374–396)

The class defines `convert_to_markdown` twice (src lines 248 and 374);
the second definition shadows the first, so the effective method is the
one at lines 374–396, modelled here. -/

/-- `convert_to_markdown(content)` (src lines 374–396): concatenate
`page_text + "\n\n"` for each entry of `content['text']` in order; then,
iff `content.get('image_texts')` is truthy (the key present with a
non-empty list), append the `## Extracted Image Texts` header and
`img_text + "\n\n"` for each image text in order. -/
def convert_to_markdown (c : Content) : String :=
  let md := c.text.foldl (fun acc t => acc ++ (t ++ "\n\n")) ""
  match c.image_texts with
  | some (t :: ts) =>
    (t :: ts).foldl (fun acc s => acc ++ (s ++ "\n\n"))
      (md ++ "## Extracted Image Texts\n\n")
  | _ => md

/-! ## Pipelines (`convert`, src lines 398–425; `main`, src lines 427–457) -/

/-- The `convert` method (src lines 398–425): extract, then — only when
`content['images']` is truthy — set `content['image_texts']` from
`process_images`, then assemble; the string written to the output file is
returned.  A document-level extraction error propagates
(logged and re-raised). -/
def convert {β : Type} (rasterize : ℕ → β) (crop : β → Rect → Option β)
    (ocr : β → String) (doc : Option (List (Option PageData))) :
    Except Unit String :=
  match extract_content doc with
  | Except.error e => Except.error e
  | Except.ok (c, _) =>
    let c2 :=
      match c.images with
      | [] => c
      | _ :: _ => { c with image_texts := some (process_images rasterize crop ocr c.images).1 }
    Except.ok (convert_to_markdown c2)

/-- The conversion the CLI entry point `main` actually performs after its
argument checks (src lines 448–451): `extract_content` followed directly
by `convert_to_markdown`, whose result is written to the output file —
`process_images` (and the `convert` method) are never invoked on this
path. -/
def mainOutput (doc : Option (List (Option PageData))) : Except Unit String :=
  match extract_content doc with
  | Except.error e => Except.error e
  | Except.ok (c, _) => Except.ok (convert_to_markdown c)

/-- Truthiness of `page_text and page_text.strip()` negated: `true` iff the
extracted text of a page is absent (`None`), empty, or whitespace-only —
exactly the pages for which `extract_content` logs its "no text" warning. -/
def blankTextOpt : Option String → Bool
  | none => true
  | some t => pyBlank t

/-! ## Helper lemmas -/

theorem sjoin_append (l1 l2 : List String) :
    sjoin (l1 ++ l2) = sjoin l1 ++ sjoin l2 := by
  induction l1 with
  | nil => simp [sjoin, String.empty_append]
  | cons s rest ih => simp [sjoin, ih, String.append_assoc]

theorem foldl_concat {α : Type} (f : α → String) :
    ∀ (l : List α) (init : String),
      l.foldl (fun acc x => acc ++ f x) init = init ++ sjoin (l.map f) := by
  intro l
  induction l with
  | nil => intro init; simp [sjoin, String.append_empty]
  | cons a rest ih =>
    intro init
    simp only [List.foldl_cons, List.map_cons, sjoin]
    rw [ih (init ++ f a), String.append_assoc]

/-! ## C9 — rectangle intersection is symmetric -/

/-- C9: `Rect.intersects` is symmetric: `A.intersects(B) == B.intersects(A)`
for all rectangles A and B, where `intersects` is the source's negated
four-way strict-disjointness test (so touching edges count as
overlapping). -/
theorem rect_intersects_symm (a b : Rect) : a.intersects b = b.intersects a := by
  have h : ∀ p q r s : Bool, (!(p || q || r || s)) = (!(q || p || s || r)) := by decide
  exact h _ _ _ _

/-! ## C5 — table formatter -/

/-- C5: `_convert_table_to_markdown` returns `""` on an empty grid; on a
non-empty grid it returns the `| … |` header row, a `---` separator row
with one cell per header column, then one `| … |` row per remaining grid
row; on `[["Name","Age"],["Alice","30"]]` the result is exactly
`"| Name | Age |\n| --- | --- |\n| Alice | 30 |\n"`. -/
theorem table_formatter_spec :
    _convert_table_to_markdown [] = "" ∧
    (∀ (headers : List String) (rest : List (List String)),
      _convert_table_to_markdown (headers :: rest) =
        "| " ++ String.intercalate " | " headers ++ " |\n" ++
          ("| " ++ String.intercalate " | " (List.replicate headers.length "---") ++ " |\n") ++
          sjoin (rest.map fun row => "| " ++ String.intercalate " | " row ++ " |\n")) ∧
    _convert_table_to_markdown [["Name", "Age"], ["Alice", "30"]] =
      "| Name | Age |\n| --- | --- |\n| Alice | 30 |\n" := by
  refine ⟨rfl, ?_, rfl⟩
  intro headers rest
  simp only [_convert_table_to_markdown]
  rw [foldl_concat (fun row => "| " ++ String.intercalate " | " row ++ " |\n") rest]

/-! ## C7 — markdown assembler -/

/-- C7: `convert_to_markdown` returns exactly each page text followed by a
blank-line separator, in page order, then — only when image texts exist —
a single `## Extracted Image Texts` header followed by each image text
with a blank-line separator, and nothing after that section.  It is a
total Lean function of the `Content` value alone, hence deterministic and
free of I/O. -/
theorem assembler_spec (c : Content) :
    convert_to_markdown c =
      sjoin (c.text.map fun t => t ++ "\n\n") ++
        match c.image_texts with
        | some (t :: ts) =>
          "## Extracted Image Texts\n\n" ++ sjoin ((t :: ts).map fun s => s ++ "\n\n")
        | _ => "" := by
  obtain ⟨txt, imgs, its⟩ := c
  match its with
  | none =>
    simp only [convert_to_markdown]
    rw [foldl_concat (fun t => t ++ "\n\n") txt "", String.empty_append, String.append_empty]
  | some [] =>
    simp only [convert_to_markdown]
    rw [foldl_concat (fun t => t ++ "\n\n") txt "", String.empty_append, String.append_empty]
  | some (t :: ts) =>
    simp only [convert_to_markdown]
    rw [foldl_concat (fun t => t ++ "\n\n") txt "", String.empty_append,
      foldl_concat (fun s => s ++ "\n\n") (t :: ts), String.append_assoc]

/-! ## C3 — processor page-range optimization -/

/-- C3: `process_images` on an empty image list returns an empty result
without invoking the rasterizer; on a non-empty list it invokes the
rasterizer exactly once, with the inclusive range from the first
location's page number to the last location's page number — in
particular, locations on pages 5 and 7 yield the range (5, 7). -/
theorem process_images_raster_range :
    (∀ (β : Type) (rasterize : ℕ → β) (crop : β → Rect → Option β) (ocr : β → String),
      process_images rasterize crop ocr [] = ([], none)) ∧
    (∀ (β : Type) (rasterize : ℕ → β) (crop : β → Rect → Option β) (ocr : β → String)
        (i : ImageLocation) (rest : List ImageLocation),
      (process_images rasterize crop ocr (i :: rest)).2 =
        some (i.page, (rest.getLastD i).page)) ∧
    (∀ (β : Type) (rasterize : ℕ → β) (crop : β → Rect → Option β) (ocr : β → String)
        (a b : Rect),
      (process_images rasterize crop ocr [⟨5, a⟩, ⟨7, b⟩]).2 = some (5, 7)) :=
  ⟨fun _ _ _ _ => rfl, fun _ _ _ _ _ _ => rfl, fun _ _ _ _ _ _ => rfl⟩

/-! ## C1 — page-to-bitmap index mapping (the off-by-range bug) -/

/-- C1 (the code at the failing input): with image locations on pages 5
and 7 — so only the 3 bitmaps of the inclusive range [5, 7] are
rasterized — and an OCR that reads "HELLO" from every crop, the source's
`page_index = page - 1` (= 4) is out of range, the raised `IndexError` is
swallowed by the outer handler, and `process_images` returns no image
texts at all; the index the claim prescribes, `page - first` (= 0), does
select page 5's bitmap. -/
theorem process_images_index_bug :
    process_images (β := ℕ) (fun n => n) (fun b _ => some b) (fun _ => "HELLO")
        [⟨5, ⟨0, 0, 1, 1⟩⟩, ⟨7, ⟨0, 0, 1, 1⟩⟩] = ([], some (5, 7)) ∧
    (rasterPages (fun n => n) 5 7).get? (5 - 1) = none ∧
    (rasterPages (fun n => n) 5 7).get? (5 - 5) = some 5 :=
  ⟨rfl, rfl, rfl⟩

/-! ## C2 — pipeline order: the CLI path never runs the processor -/

/-- C2 (the code at the failing input): for a one-page document whose page
text is "PageText" and which contains one image whose OCR reads "Foo",
the CLI path (`main`, modelled by `mainOutput`) writes only the
extractor/assembler output with no image-text section, while the unused
`convert` method — the pipeline the claim describes — would include the
processor's image text. -/
theorem main_pipeline_omits_image_texts :
    mainOutput (some [some ⟨some "PageText", [some ⟨0, 0, 1, 1⟩]⟩]) =
      Except.ok "PageText\n\n" ∧
    convert (β := ℕ) (fun n => n) (fun b _ => some b) (fun _ => "Foo")
        (some [some ⟨some "PageText", [some ⟨0, 0, 1, 1⟩]⟩]) =
      Except.ok "PageText\n\n## Extracted Image Texts\n\nImage text (Page 1):\nFoo\n\n" :=
  ⟨rfl, rfl⟩

/-! ## Extractor lemmas -/

theorem pageTexts_append (l1 l2 : List (Option PageData)) :
    pageTexts (l1 ++ l2) = pageTexts l1 ++ pageTexts l2 :=
  List.filterMap_append ..

theorem extractLoop_text (l : List (Option PageData)) :
    ∀ n, (extractLoop n l).1.text = pageTexts l := by
  induction l with
  | nil => intro n; rfl
  | cons p? rest ih =>
    intro n
    cases p? with
    | none =>
      simp only [extractLoop]
      rw [ih (n + 1)]
      simp [pageTexts, List.filterMap_cons]
    | some pd =>
      cases htext : pd.text with
      | none =>
        simp only [extractLoop, htext]
        simp [pageTexts, List.filterMap_cons, htext, ih (n + 1)]
      | some t =>
        by_cases hb : pyBlank t = true
        · simp only [extractLoop, htext, hb]
          simp [pageTexts, List.filterMap_cons, htext, hb, ih (n + 1)]
        · simp only [extractLoop, htext]
          simp [pageTexts, List.filterMap_cons, htext, hb, ih (n + 1)]

theorem extractLoop_pageError (pre : List (Option PageData)) :
    ∀ (n : ℕ) (post : List (Option PageData)),
      LogEvent.pageError (n + pre.length) ∈ (extractLoop n (pre ++ none :: post)).2 := by
  induction pre with
  | nil =>
    intro n post
    simp [extractLoop]
  | cons p? pre2 ih =>
    intro n post
    have harith : n + (p? :: pre2).length = (n + 1) + pre2.length := by
      simp [List.length_cons]; omega
    rw [harith]
    cases p? with
    | none =>
      simp only [List.cons_append, extractLoop]
      exact List.mem_cons_of_mem _ (ih (n + 1) post)
    | some pd =>
      simp only [List.cons_append, extractLoop]
      exact List.mem_append_right _ (ih (n + 1) post)

theorem extractLoop_noText (l : List (Option PageData)) :
    ∀ (n i : ℕ) (pd : PageData), l.get? i = some (some pd) →
      blankTextOpt pd.text = true → LogEvent.noText (n + i) ∈ (extractLoop n l).2 := by
  induction l with
  | nil => intro n i pd h _; simp at h
  | cons p? rest ih =>
    intro n i pd hget hblank
    cases i with
    | zero =>
      rw [List.get?_cons_zero] at hget
      injection hget with hget
      subst hget
      cases htext : pd.text with
      | none =>
        simp [extractLoop, htext]
      | some t =>
        rw [htext] at hblank
        simp only [blankTextOpt] at hblank
        simp [extractLoop, htext, hblank]
    | succ j =>
      rw [List.get?_cons_succ] at hget
      have harith : n + (j + 1) = (n + 1) + j := by omega
      rw [harith]
      cases p? with
      | none =>
        simp only [extractLoop]
        exact List.mem_cons_of_mem _ (ih (n + 1) j pd hget hblank)
      | some pd2 =>
        simp only [extractLoop]
        exact List.mem_append_right _ (ih (n + 1) j pd hget hblank)

/-! ## C4 — per-page errors are skipped, document-level errors re-raised -/

/-- C4: a document-level open/parse failure is re-raised
(`Except.error`); for any page list, `extract_content` returns normally;
and when one page raises (the `none` page), an error is logged with that
page's 1-based number and the text entries of all preceding and
subsequent pages are still extracted, in order. -/
theorem extract_content_error_isolation :
    extract_content none = Except.error () ∧
    (∀ pages, ∃ r, extract_content (some pages) = Except.ok r) ∧
    (∀ pre post, ∃ c log,
      extract_content (some (pre ++ none :: post)) = Except.ok (c, log) ∧
      c.text = pageTexts pre ++ pageTexts post ∧
      LogEvent.pageError (pre.length + 1) ∈ log) := by
  refine ⟨rfl, fun pages => ⟨extractLoop 1 pages, rfl⟩, fun pre post => ?_⟩
  refine ⟨(extractLoop 1 (pre ++ none :: post)).1,
    (extractLoop 1 (pre ++ none :: post)).2, rfl, ?_, ?_⟩
  · rw [extractLoop_text, pageTexts_append]
    simp [pageTexts, List.filterMap_cons]
  · have h := extractLoop_pageError pre 1 post
    rwa [Nat.add_comm] at h

/-! ## C8 — page texts recorded only when non-blank -/

/-- C8 counterexample: for a 2-page document whose first page's text is
whitespace-only, `extract_content` records only the second page's text —
the text list has one entry, not one entry per page as the claim
states (the blank page's text is dropped, with a warning). -/
theorem extract_blank_page_dropped :
    extract_content (some [some ⟨some "   ", []⟩, some ⟨some "Hello", []⟩]) =
      Except.ok (⟨["Hello"], [], none⟩, [LogEvent.noText 1]) ∧
    (∀ c log,
      extract_content (some [some ⟨some "   ", []⟩, some ⟨some "Hello", []⟩]) =
        Except.ok (c, log) → c.text.length ≠ 2) := by
  refine ⟨rfl, ?_⟩
  intro c log h
  rw [show extract_content (some [some ⟨some "   ", []⟩, some ⟨some "Hello", []⟩]) =
      Except.ok ((⟨["Hello"], [], none⟩ : Content), [LogEvent.noText 1]) from rfl] at h
  simp only [Except.ok.injEq, Prod.mk.injEq] at h
  obtain ⟨h1, -⟩ := h
  subst h1
  decide

/-- C8 amended: the extractor appends a page's extracted text to the
document-level list, in page order, only when that text is present,
non-empty and not whitespace-only; a page whose text is absent, empty or
whitespace-only gets a logged "no text" warning carrying its 1-based page
number, contributes no entry, and extraction continues normally. -/
theorem extract_text_filter_spec (pages : List (Option PageData)) (i : ℕ) (pd : PageData)
    (h1 : pages.get? i = some (some pd)) (h2 : blankTextOpt pd.text = true) :
    ∃ c log, extract_content (some pages) = Except.ok (c, log) ∧
      c.text = pageTexts pages ∧ LogEvent.noText (i + 1) ∈ log := by
  refine ⟨(extractLoop 1 pages).1, (extractLoop 1 pages).2, rfl,
    extractLoop_text pages 1, ?_⟩
  have h := extractLoop_noText pages 1 i pd h1 h2
  rwa [Nat.add_comm] at h

/-- Witness for the amended C8: a one-page document whose only page's text
is whitespace-only. -/
theorem extract_text_filter_spec_witness :
    ∃ c log, extract_content (some [some ⟨some "   ", []⟩]) = Except.ok (c, log) ∧
      c.text = pageTexts [some ⟨some "   ", []⟩] ∧ LogEvent.noText (0 + 1) ∈ log :=
  extract_text_filter_spec [some ⟨some "   ", []⟩] 0 ⟨some "   ", []⟩ rfl (by decide)

/-! ## Segmenter lemmas -/

theorem analyzeAux_congr (l : List Glyph) :
    ∀ (cs : Option ℚ) (b1 b2 : List String), sjoin b1 = sjoin b2 → (b1 = [] ↔ b2 = []) →
      analyzeAux cs b1 l = analyzeAux cs b2 l := by
  induction l with
  | nil =>
    intro cs b1 b2 hj he
    cases b1 with
    | nil =>
      have h2 : b2 = [] := he.mp rfl
      subst h2; rfl
    | cons a as =>
      cases b2 with
      | nil => exact absurd (he.mpr rfl) (by simp)
      | cons b bs => simp [analyzeAux, hj]
  | cons g gs ih =>
    intro cs b1 b2 hj he
    cases hsize : g.size with
    | none =>
      simp only [analyzeAux, hsize]
      exact ih cs (b1 ++ [g.text]) (b2 ++ [g.text])
        (by rw [sjoin_append, sjoin_append, hj]) (by simp)
    | some s =>
      simp only [analyzeAux, hsize]
      split
      · cases b1 with
        | nil =>
          have h2 : b2 = [] := he.mp rfl
          subst h2; rfl
        | cons a as =>
          cases b2 with
          | nil => exact absurd (he.mpr rfl) (by simp)
          | cons b bs => simp [hj]
      · exact ih cs (b1 ++ [g.text]) (b2 ++ [g.text])
          (by rw [sjoin_append, sjoin_append, hj]) (by simp)

theorem runs_cons_cons_eq (t t2 : String) (c : ℚ) (rest : List (String × ℚ)) :
    runs ((t, c) :: (t2, c) :: rest) = runs ((t ++ t2, c) :: rest) := by
  cases hr : runs rest with
  | nil => simp [runs, hr]
  | cons p more =>
    obtain ⟨t3, s3⟩ := p
    by_cases h3 : s3 = c
    · subst h3; simp [runs, hr, String.append_assoc]
    · simp [runs, hr, h3]

theorem runs_cons_cons_ne (t t2 : String) (c s2 : ℚ) (rest : List (String × ℚ))
    (h : s2 ≠ c) :
    runs ((t, c) :: (t2, s2) :: rest) = (t, c) :: runs ((t2, s2) :: rest) := by
  cases hr : runs rest with
  | nil => simp [runs, hr, h]
  | cons p more =>
    obtain ⟨t3, s3⟩ := p
    by_cases h3 : s3 = s2
    · subst h3; simp [runs, hr, h]
    · simp [runs, hr, h3, h]

theorem analyzeAux_runs (gs : List (String × ℚ)) :
    ∀ (c : ℚ) (t : String),
      analyzeAux (some c) [t] (gs.map fun p => ⟨p.1, some p.2⟩) =
        (runs ((t, c) :: gs)).map fun p => (⟨p.1, some p.2⟩ : TextBlock) := by
  induction gs with
  | nil =>
    intro c t
    simp [analyzeAux, runs, sjoin, String.append_empty]
  | cons p gs2 ih =>
    obtain ⟨t2, s2⟩ := p
    intro c t
    by_cases h : s2 = c
    · subst h
      simp only [List.map_cons, analyzeAux]
      rw [if_neg (by simp)]
      rw [analyzeAux_congr (gs2.map fun p => ⟨p.1, some p.2⟩) (some s2) ([t] ++ [t2]) [t ++ t2]
        (by simp [sjoin, String.append_empty, String.append_assoc]) (by simp)]
      rw [ih s2 (t ++ t2), runs_cons_cons_eq]
    · simp only [List.map_cons, analyzeAux]
      rw [if_pos (by simp [h])]
      rw [ih s2 t2, runs_cons_cons_ne t t2 c s2 gs2 h]
      simp [sjoin, String.append_empty]

/-! ## C6 — one block per maximal run of same-size glyphs -/

/-- C6: on any glyph sequence in which every glyph carries a size,
`_analyze_layout` produces exactly one `(text, size)` block per maximal
run of consecutive same-size glyphs, texts concatenated, in original
reading order (`runs`); in particular sizes `[10,10,12,12,10]` with texts
`["a","b","c","d","e"]` yield blocks `("ab",10), ("cd",12), ("e",10)`. -/
theorem segmenter_maximal_runs :
    (∀ gs : List (String × ℚ),
      _analyze_layout (gs.map fun p => ⟨p.1, some p.2⟩) =
        (runs gs).map fun p => (⟨p.1, some p.2⟩ : TextBlock)) ∧
    _analyze_layout
        [⟨"a", some 10⟩, ⟨"b", some 10⟩, ⟨"c", some 12⟩, ⟨"d", some 12⟩, ⟨"e", some 10⟩] =
      [⟨"ab", some 10⟩, ⟨"cd", some 12⟩, ⟨"e", some 10⟩] := by
  constructor
  · intro gs
    cases gs with
    | nil => rfl
    | cons p gs2 =>
      obtain ⟨t, s⟩ := p
      simp only [_analyze_layout, List.map_cons, analyzeAux]
      rw [if_pos (by simp)]
      exact analyzeAux_runs gs2 s t
  · rfl

/-! ## C10 — glyphs without a size never start a new block -/

theorem analyzeAux_merge (l1 : List Glyph) :
    ∀ (cs : Option ℚ) (buf : List String) (g : Glyph) (t : String) (l2 : List Glyph),
      analyzeAux cs buf (l1 ++ g :: ⟨t, none⟩ :: l2) =
        analyzeAux cs buf (l1 ++ ⟨g.text ++ t, g.size⟩ :: l2) := by
  induction l1 with
  | nil =>
    intro cs buf g t l2
    simp only [List.nil_append]
    cases hsize : g.size with
    | none =>
      simp only [analyzeAux, hsize]
      exact analyzeAux_congr l2 cs ((buf ++ [g.text]) ++ [t]) (buf ++ [g.text ++ t])
        (by simp [sjoin_append, sjoin, String.append_empty, String.append_assoc]) (by simp)
    | some s =>
      simp only [analyzeAux, hsize]
      split
      · cases buf with
        | nil =>
          exact analyzeAux_congr l2 (some s) ([g.text] ++ [t]) [g.text ++ t]
            (by simp [sjoin, String.append_empty, String.append_assoc]) (by simp)
        | cons b bs =>
          exact congrArg _ (analyzeAux_congr l2 (some s) ([g.text] ++ [t]) [g.text ++ t]
            (by simp [sjoin, String.append_empty, String.append_assoc]) (by simp))
      · exact analyzeAux_congr l2 cs ((buf ++ [g.text]) ++ [t]) (buf ++ [g.text ++ t])
          (by simp [sjoin_append, sjoin, String.append_empty, String.append_assoc]) (by simp)
  | cons a l1' ih =>
    intro cs buf g t l2
    simp only [List.cons_append]
    cases hsize : a.size with
    | none =>
      simp only [analyzeAux, hsize]
      exact ih cs (buf ++ [a.text]) g t l2
    | some s =>
      simp only [analyzeAux, hsize]
      split
      · cases buf with
        | nil => exact ih (some s) [a.text] g t l2
        | cons b bs => exact congrArg _ (ih (some s) [a.text] g t l2)
      · exact ih cs (buf ++ [a.text]) g t l2

theorem analyzeAux_sizeless (ts : List String) :
    ∀ (cs : Option ℚ) (buf : List String),
      analyzeAux cs buf (ts.map fun t => ⟨t, none⟩) =
        match buf ++ ts with
        | [] => []
        | _ :: _ => [⟨sjoin (buf ++ ts), cs⟩] := by
  induction ts with
  | nil =>
    intro cs buf
    simp only [List.map_nil, List.append_nil]
    rfl
  | cons t ts2 ih =>
    intro cs buf
    simp only [List.map_cons, analyzeAux]
    rw [ih cs (buf ++ [t])]
    simp [List.append_assoc, List.singleton_append]

/-- C10: a glyph record without a size attribute never starts a new text
block — it behaves exactly as if its text were appended to the preceding
glyph's text, leaving the running current size unchanged; and a sequence
consisting only of sizeless glyphs yields a single block holding all the
text, tagged `none` (no size-carrying glyph having occurred). -/
theorem sizeless_glyph_merges :
    (∀ (l1 : List Glyph) (g : Glyph) (t : String) (l2 : List Glyph),
      _analyze_layout (l1 ++ g :: ⟨t, none⟩ :: l2) =
        _analyze_layout (l1 ++ ⟨g.text ++ t, g.size⟩ :: l2)) ∧
    (∀ ts : List String,
      _analyze_layout (ts.map fun t => ⟨t, none⟩) =
        match ts with
        | [] => []
        | _ :: _ => [⟨sjoin ts, none⟩]) := by
  constructor
  · intro l1 g t l2
    exact analyzeAux_merge l1 none [] g t l2
  · intro ts
    have h := analyzeAux_sizeless ts none []
    rwa [List.nil_append] at h

end Pdf2Markdown
